import Mathlib

/-!
Verification development for the Github-Scripts repository.

The definitions below are shallow embeddings of the two core source files:

* `handle_GH_paging.py` — the paginated, rate-limit-aware GET loop `makeCall`,
  modelled as a step machine `mcGo` over a script of HTTP responses, with an
  integer clock and a trace of issued requests.
* `copy_github_issues.py` — the issue-migration orchestrator: the
  `ISSUE_REGEX` cross-reference matcher (modelled character by character,
  following Python `re` semantics for this concrete pattern), the body/comment
  rewriting loops of `patch_target_issues` and `patch_source_issues`, the
  `issue_map` construction of `write_issues`, and the control flow of `main`.

Strings are modelled as `List Char` (ASCII inputs); Python `dict` is modelled
as an insertion-ordered association list.
-/

namespace GithubScripts

/-! ### Python string primitives used by the scripts -/

/-- Python `\s` for the ASCII range: space, tab, newline, carriage return,
vertical tab, form feed. -/
def pyIsSpace (c : Char) : Bool :=
  c == ' ' || c == '\t' || c == '\n' || c == '\r' || c == '\x0b' || c == '\x0c'

/-- Python `\d` for the ASCII range. -/
def isDigitChar (c : Char) : Bool :=
  '0' ≤ c && c ≤ '9'

/-- Python `int(s)` on a nonempty string of decimal digits. -/
def digitsToNat (ds : List Char) : Nat :=
  ds.foldl (fun a c => a * 10 + (c.toNat - '0'.toNat)) 0

/-- Python `str(n)` / `'%s' % n` for a nonnegative integer. -/
def natToDigits (n : Nat) : List Char :=
  Nat.toDigits 10 n

/-- Python `s.strip()`: drop whitespace from both ends. -/
def pyStrip (s : List Char) : List Char :=
  ((s.dropWhile pyIsSpace).reverse.dropWhile pyIsSpace).reverse

/-- Python `s.find(sub) >= 0`: `sub` occurs as a contiguous substring of `s`
(an empty `sub` is found at position 0). -/
def containsSub : List Char → List Char → Bool
  | [], sub => sub.isEmpty
  | c :: r, sub => sub.isPrefixOf (c :: r) || containsSub r sub

/-- Python `s.replace(old, new)`: replace every non-overlapping occurrence of
`old` in `s` by `new`, scanning left to right.  The scripts never call
`replace` with an empty `old`; for an empty `old` this model returns `s`
unchanged.  The fuel argument of the auxiliary function is an upper bound on
the recursion depth; `s.length` always suffices. -/
def pyReplaceAux : Nat → List Char → List Char → List Char → List Char
  | 0, s, _, _ => s
  | fuel + 1, s, old, new =>
    if old.isPrefixOf s && !old.isEmpty then
      new ++ pyReplaceAux fuel (s.drop old.length) old new
    else
      match s with
      | [] => []
      | c :: r => c :: pyReplaceAux fuel r old new

def pyReplace (s old new : List Char) : List Char :=
  pyReplaceAux s.length s old new

/-!
### The cross-reference regex

`copy_github_issues.py` line 42:

    ISSUE_REGEX = r'(\s#|\S+/issues/)(\d+)'

`re.findall` returns, for each non-overlapping match found scanning left to
right, the pair of captured groups `(marker, digits)`.  At a given start
position Python tries the first alternative `\s#`; the second alternative has
a greedy `\S+`, so it matches the longest run of non-space characters that is
followed by the literal `/issues/` and at least one digit — i.e. the *last*
possible `/issues/` split inside the maximal non-space run.
-/

/-- The literal `/issues/` of the second alternative. -/
def issuesLit : List Char := ['/', 'i', 's', 's', 'u', 'e', 's', '/']

def headIsDigit : List Char → Bool
  | [] => false
  | c :: _ => isDigitChar c

/-- Does `/issues/` followed by a digit start at this suffix? -/
def issuesHere (l : List Char) : Bool :=
  issuesLit.isPrefixOf l && headIsDigit (l.drop 8)

/-- Largest index `j ≥ 1` into `R` at which `/issues/` followed by a digit
starts (the greedy backtracking point of `\S+`). -/
def findLastIssuesAux : Nat → List Char → Option Nat → Option Nat
  | _, [], best => best
  | j, c :: rest, best =>
    let best' := if 1 ≤ j && issuesHere (c :: rest) then some j else best
    findLastIssuesAux (j + 1) rest best'

def findLastIssues (R : List Char) : Option Nat :=
  findLastIssuesAux 0 R none

/-- Python `\d+` (greedy): maximal digit prefix and the remainder. -/
def takeDigits : List Char → List Char × List Char
  | [] => ([], [])
  | c :: rest =>
    if isDigitChar c then
      let p := takeDigits rest
      (c :: p.1, p.2)
    else ([], c :: rest)

/-- First alternative `\s#` followed by `\d+`, anchored at the start of `s`.
Returns `(marker group, digits group, rest of the string)`. -/
def matchAlt1 : List Char → Option (List Char × List Char × List Char)
  | c1 :: c2 :: rest =>
    if pyIsSpace c1 && c2 == '#' then
      let p := takeDigits rest
      if p.1.isEmpty then none else some ([c1, c2], p.1, p.2)
    else none
  | _ => none

/-- Second alternative `\S+/issues/` followed by `\d+`, anchored at the start
of `s`: the marker group is the longest non-space run ending in `/issues/`
that is followed by a digit. -/
def matchAlt2 (s : List Char) : Option (List Char × List Char × List Char) :=
  let R := s.takeWhile (fun c => !pyIsSpace c)
  match findLastIssues R with
  | none => none
  | some j =>
    let p := takeDigits (s.drop (j + 8))
    some (s.take (j + 8), p.1, p.2)

/-- Try a match of `ISSUE_REGEX` anchored at the start of `s` (the two
alternatives are mutually exclusive: the first requires a leading space, the
second a leading non-space). -/
def matchAt (s : List Char) : Option (List Char × List Char × List Char) :=
  match matchAlt1 s with
  | some m => some m
  | none => matchAlt2 s

/-- Python `re.findall(ISSUE_REGEX, s)`: scan left to right, collecting
non-overlapping matches; on failure advance one character.  Every match
consumes at least one character, so `s.length` fuel suffices. -/
def findallAux : Nat → List Char → List (List Char × List Char)
  | 0, _ => []
  | _ + 1, [] => []
  | fuel + 1, c :: rest =>
    match matchAt (c :: rest) with
    | some (mk, ds, r) => (mk, ds) :: findallAux fuel r
    | none => findallAux fuel rest

def findall (s : List Char) : List (List Char × List Char) :=
  findallAux s.length s

/-! ### The reference-rewriting loops of `copy_github_issues.py` -/

/-- Python `' %s/%s' % (base, tail)`. -/
def refUrl (base tail : List Char) : List Char :=
  ' ' :: (base ++ '/' :: tail)

/-- In-scope test, lines 281/316/359:
`match[0].strip() == '#' or match[0].find(source_repo) >= 0`. -/
def inScopeB (srcRepo marker : List Char) : Bool :=
  (pyStrip marker == ['#']) || containsSub marker srcRepo

/-- One iteration of the body-rewriting loop of `patch_target_issues`
(lines 278–293): the self-reference guard `int(match[1]) != key`, then the
`issue_map.get` lookup choosing a target- or source-system URL, then a global
`str.replace` of the matched text. -/
def patchStep (srcRepo tgtUrl srcUrl : List Char) (m : List (Nat × Nat)) (key : Nat)
    (nb : List Char) (mt : List Char × List Char) : List Char :=
  if inScopeB srcRepo mt.1 then
    if digitsToNat mt.2 = key then nb
    else
      match List.lookup (digitsToNat mt.2) m with
      | some t => pyReplace nb (mt.1 ++ mt.2) (refUrl tgtUrl (natToDigits t))
      | none => pyReplace nb (mt.1 ++ mt.2) (refUrl srcUrl mt.2)
  else nb

/-- Rewriting of one issue body by `patch_target_issues` (lines 275–293). -/
def patchTargetBody (srcRepo tgtUrl srcUrl : List Char) (m : List (Nat × Nat))
    (key : Nat) (body : List Char) : List Char :=
  (findall body).foldl (patchStep srcRepo tgtUrl srcUrl m key) body

/-- One iteration of the comment-rewriting loop of `patch_target_issues`
(lines 313–325): same as `patchStep` but with no self-reference guard. -/
def patchCommentStep (srcRepo tgtUrl srcUrl : List Char) (m : List (Nat × Nat))
    (nb : List Char) (mt : List Char × List Char) : List Char :=
  if inScopeB srcRepo mt.1 then
    match List.lookup (digitsToNat mt.2) m with
    | some t => pyReplace nb (mt.1 ++ mt.2) (refUrl tgtUrl (natToDigits t))
    | none => pyReplace nb (mt.1 ++ mt.2) (refUrl srcUrl mt.2)
  else nb

/-- Rewriting of one comment body by `patch_target_issues` (lines 310–325). -/
def patchTargetCommentBody (srcRepo tgtUrl srcUrl : List Char) (m : List (Nat × Nat))
    (body : List Char) : List Char :=
  (findall body).foldl (patchCommentStep srcRepo tgtUrl srcUrl m) body

/-- One iteration of the body-rewriting loop of `patch_source_issues`
(lines 356–364): only mapped references are replaced (by a target-system URL);
an unmapped reference is left alone — there is no `else` branch — and there is
no self-reference guard. -/
def patchSourceStep (srcRepo tgtUrl : List Char) (m : List (Nat × Nat))
    (nb : List Char) (mt : List Char × List Char) : List Char :=
  if inScopeB srcRepo mt.1 then
    match List.lookup (digitsToNat mt.2) m with
    | some t => pyReplace nb (mt.1 ++ mt.2) (refUrl tgtUrl (natToDigits t))
    | none => nb
  else nb

/-- Rewriting of one issue body by `patch_source_issues` (lines 353–364). -/
def patchSourceBody (srcRepo tgtUrl : List Char) (m : List (Nat × Nat))
    (body : List Char) : List Char :=
  (findall body).foldl (patchSourceStep srcRepo tgtUrl m) body

/-! Sample configuration values used in concrete runs (the scripts read
`SOURCE_ORG`, `SOURCE_REPO`, `TARGET_ORG`, `TARGET_REPO` from the
environment and assemble the two `.../issues` URL prefixes from them). -/

def sampleSrcRepo : List Char := "srcrepo".toList

def sampleTgtIssuesUrl : List Char := "https://github.ibm.com/torg/trepo/issues".toList

def sampleSrcIssuesUrl : List Char := "https://github.ibm.com/sorg/srcrepo/issues".toList

/-!
### The paginated client `makeCall` of `handle_GH_paging.py`

The loop is modelled as a machine consuming a *script*: the list of HTTP
responses the server returns, one per GET the loop issues.  URLs are abstract
numeric identifiers; the link-header handling of lines 62–70 is folded into
the `next` field of a response (`none` when no further page exists).  Time is
an integer clock: issuing a request takes no time, and the rate-limit branch
advances the clock by `reset - clock` exactly as line 88/94 compute the sleep
from `int(rate_limit_reset) - int(time.time())`.  Every GET is recorded in a
trace as the pair `(url, clock)`.
-/

/-- One HTTP response as seen by `makeCall`: the status code, the two
rate-limit headers, the decoded JSON array and the `next` link. -/
structure HResp (α : Type) where
  status : Nat
  remaining : Nat
  reset : Nat
  items : List α
  next : Option Nat
deriving DecidableEq

/-- State of the paging loop: current URL (`none` = exhausted), accumulated
results, integer clock, and the trace of issued requests. -/
structure MCState (α : Type) where
  url : Option Nat
  results : List α
  clock : Nat
  reqs : List (Nat × Nat)
deriving DecidableEq

/-- Errors of the loop: `fatal` models `raise Exception("%s: %s" % (status,
url))`; `scriptEnded` is a model artifact raised when the loop would issue a
request but the response script is exhausted. -/
inductive MCErr where
  | fatal (code url : Nat)
  | scriptEnded
deriving DecidableEq

/-- Line 43: `number is not None and len(results) >= number`. -/
def capReached (number : Option Nat) (results : List α) : Bool :=
  match number with
  | none => false
  | some n => decide (n ≤ results.length)

/-- The `while url is not None` loop of lines 42–107.  Status dispatch:
200 accumulates and advances the cursor; 403 with zero remaining quota sleeps
until the reset time, keeping the URL and results (lines 82–98); 403 with
nonzero quota raises (line 101); 409 terminates pagination (lines 102–105);
anything else raises (line 107). -/
def mcGo (number : Option Nat) : List (HResp α) → MCState α → Except MCErr (MCState α)
  | script, st =>
    match st.url with
    | none => .ok st
    | some u =>
      if capReached number st.results then .ok st
      else
        match script with
        | [] => .error MCErr.scriptEnded
        | r :: rest =>
          if r.status = 200 then
            mcGo number rest ⟨r.next, st.results ++ r.items, st.clock, st.reqs ++ [(u, st.clock)]⟩
          else if r.status = 403 then
            if r.remaining = 0 then
              mcGo number rest
                ⟨some u, st.results, st.clock + (r.reset - st.clock), st.reqs ++ [(u, st.clock)]⟩
            else .error (MCErr.fatal r.status u)
          else if r.status = 409 then
            mcGo number rest ⟨none, st.results, st.clock, st.reqs ++ [(u, st.clock)]⟩
          else .error (MCErr.fatal r.status u)

def initState (u0 t0 : Nat) : MCState α :=
  ⟨some u0, [], t0, []⟩

/-- `makeCall` result value: the loop followed by the final truncation of
lines 109–112 (`results[0:number]` when `number <= len(results)`). -/
def makeCallResults (number : Option Nat) (script : List (HResp α)) (u0 t0 : Nat) :
    Except MCErr (List α) :=
  match mcGo number script (initState u0 t0) with
  | .error e => .error e
  | .ok st =>
    match number with
    | none => .ok st.results
    | some n => if st.results.length < n then .ok st.results else .ok (st.results.take n)

/-- Trace of requests issued by a successful `makeCall` run. -/
def mcReqs (number : Option Nat) (script : List (HResp α)) (u0 t0 : Nat) : List (Nat × Nat) :=
  match mcGo number script (initState u0 t0) with
  | .ok st => st.reqs
  | .error _ => []

def mcReqCount (number : Option Nat) (script : List (HResp α)) (u0 t0 : Nat) : Nat :=
  (mcReqs number script u0 t0).length

/-- Script of an API serving the given pages successfully: page `i` lives at
URL `base + i` and links to its successor, the last page has no next link. -/
def okScript : List (List α) → Nat → List (HResp α)
  | [], _ => []
  | p :: rest, base =>
    ⟨200, 0, 0, p, if rest.isEmpty then none else some (base + 1)⟩ :: okScript rest base.succ

/-- Like `okScript`, but every page (also the last) links onward — used to
place a further response, such as a 409, after the pages. -/
def okScriptCont : List (List α) → Nat → List (HResp α)
  | [], _ => []
  | p :: rest, base => ⟨200, 0, 0, p, some (base + 1)⟩ :: okScriptCont rest base.succ

/-- Requests issued while consuming `pages` from URL `u` at time `t`. -/
def okReqs (pages : List (List α)) (u t : Nat) : List (Nat × Nat) :=
  (List.range pages.length).map (fun i => (u + i, t))

/-- Specification of the capped accumulation: append pages until the
accumulated length reaches `n`. -/
def pagedAccum (n : Nat) : List (List α) → List α → List α
  | [], acc => acc
  | p :: rest, acc => if n ≤ acc.length then acc else pagedAccum n rest (acc ++ p)

/-- Number of pages the capped loop fetches. -/
def pagedReqs (n : Nat) : List (List α) → List α → Nat
  | [], _ => 0
  | p :: rest, acc => if n ≤ acc.length then 0 else 1 + pagedReqs n rest (acc ++ p)

/-!
### The Create phase `write_issues` of `copy_github_issues.py`

Only the aspects the claims are about are embedded: the construction of
`issue_map` (line 226, a Python dict assignment) and the copying of comments
(lines 229–243).  The title/label/assignee/milestone payload shaping of lines
188–221 does not influence either and is not modelled.  The outcome of each
`requests.post('%s/issues' ...)` call is supplied per issue: HTTP 201, an
error status (logged, loop continues, lines 245–248), or a raised transport
exception that propagates out of `write_issues` (which has no try/except).
-/

structure SrcComment where
  author : List Char
  createdAt : List Char
  body : List Char
deriving DecidableEq

/-- A source issue: its number and its comments *resource*, which is
paginated — the list of pages the API would serve for `comments_url`.
`write_issues` line 232 fetches this resource with a single plain
`requests.get`, which yields only the first page. -/
structure SrcIssue where
  number : Nat
  commentPages : List (List SrcComment)
deriving DecidableEq

inductive CreateOut where
  | created (newNum : Nat)
  | failed (code : Nat)
  | raised
deriving DecidableEq

/-- One loop iteration's inputs: the issue, the outcome of the issue-creation
POST, and whether the GET of the source comments returned 200 (line 233). -/
structure IssueStep where
  issue : SrcIssue
  createResp : CreateOut
  commentsFetchOk : Bool
deriving DecidableEq

/-- Python dict assignment `d[k] = v` on an insertion-ordered association
list: overwrite in place if the key exists, else append. -/
def dictInsert (k v : Nat) (m : List (Nat × Nat)) : List (Nat × Nat) :=
  if m.any (fun p => p.1 == k) then
    m.map (fun p => if p.1 == k then (k, v) else p)
  else m ++ [(k, v)]

/-- Month abbreviation of `strftime('%b')`; inputs outside 1–12 would make
Python's `strptime` raise, the model defaults them to January. -/
def monthName (m : Nat) : List Char :=
  if m = 1 then "Jan".toList else if m = 2 then "Feb".toList
  else if m = 3 then "Mar".toList else if m = 4 then "Apr".toList
  else if m = 5 then "May".toList else if m = 6 then "Jun".toList
  else if m = 7 then "Jul".toList else if m = 8 then "Aug".toList
  else if m = 9 then "Sep".toList else if m = 10 then "Oct".toList
  else if m = 11 then "Nov".toList else if m = 12 then "Dec".toList
  else "Jan".toList

/-- Zero-padded day of `strftime('%d')`. -/
def twoDigit (n : Nat) : List Char :=
  if n < 10 then '0' :: natToDigits n else natToDigits n

/-- `get_date` (lines 78–85) for a well-formed `YYYY-MM-DDTHH:MM:SSZ`
timestamp: take the date part before `T` and render it as `%b %d`. -/
def getDate (s : List Char) : List Char :=
  let ds := s.takeWhile (fun c => c != 'T')
  let month := digitsToNat ((ds.drop 5).take 2)
  let day := digitsToNat ((ds.drop 8).take 2)
  monthName month ++ ' ' :: twoDigit day

/-- The provenance prefix of a copied comment, line 238:
`"_On %s, %s commented:_\n%s"`. -/
def formatComment (c : SrcComment) : List Char :=
  "_On ".toList ++ getDate c.createdAt ++ ", ".toList ++ c.author
    ++ " commented:_\n".toList ++ c.body

/-- Result of `write_issues`: the issue map, the comments posted to the
target (as pairs of target issue number and body), and whether an exception
escaped the function. -/
structure WriteResult where
  issueMap : List (Nat × Nat)
  posted : List (Nat × List Char)
  raised : Bool
deriving DecidableEq

/-- The per-issue loop of `write_issues` (lines 187–248).  On 201 the map
entry is added and the *first page* of the comments resource is copied, each
comment formatted by `formatComment`; on an error status the issue is logged
and skipped; a raised exception aborts the loop, losing the local dict. -/
def writeIssuesGo : List IssueStep → WriteResult → WriteResult
  | [], acc => acc
  | s :: rest, acc =>
    match s.createResp with
    | .raised => ⟨acc.issueMap, acc.posted, true⟩
    | .failed _ => writeIssuesGo rest acc
    | .created t =>
      let m1 := dictInsert s.issue.number t acc.issueMap
      let p1 :=
        if s.commentsFetchOk then
          acc.posted ++ (s.issue.commentPages.headD []).map (fun c => (t, formatComment c))
        else acc.posted
      writeIssuesGo rest ⟨m1, p1, acc.raised⟩

def writeIssues (steps : List IssueStep) : WriteResult :=
  writeIssuesGo steps ⟨[], [], false⟩

/-- The map that `main` (lines 482–521) prints in its `finally` block: `main`
initializes `issue_map` to an empty value (line 486) and reassigns it only
from the *return value* of `write_issues` (line 497); if an exception
propagates out of `write_issues`, the partial dict built inside it is lost and
the `finally` block prints the still-empty initial value. -/
def mainPrintedMap (steps : List IssueStep) : List (Nat × Nat) :=
  let w := writeIssues steps
  if w.raised then [] else w.issueMap

/-- Specification-side characterization of the issue map: one entry per
successfully created issue, in order, stopping at the first raised
exception. -/
def mapSpec (steps : List IssueStep) : List (Nat × Nat) :=
  (steps.takeWhile (fun s => s.createResp != CreateOut.raised)).filterMap
    (fun s =>
      match s.createResp with
      | .created t => some (s.issue.number, t)
      | _ => none)

/-!
### The target-patching loop of `patch_target_issues` (lines 262–334)

The loop body fetches each target issue; on a non-200 response it prints an
error — but the comments section (lines 302 onward) is *outside* the
`if/else`, so it still runs, reading the Python local `issue` left over from
the previous iteration (unbound on the first iteration, which raises
`UnboundLocalError`).  The model threads that local as an `Option`.
-/

structure TIssue where
  body : List Char
  commentBodies : List (List Char)
deriving DecidableEq

/-- Patching actions performed against the target system. -/
inductive PatchEv where
  | patchedBody (t : Nat) (nb : List Char)
  | patchedComment (t : Nat) (nc : List Char)
deriving DecidableEq

/-- The body PATCH of lines 275–300: only issued when the regex found
matches. -/
def bodyEvs (srcRepo tgtUrl srcUrl : List Char) (m : List (Nat × Nat)) (key t : Nat)
    (issue : TIssue) : List PatchEv :=
  if (findall issue.body).isEmpty then []
  else [PatchEv.patchedBody t (patchTargetBody srcRepo tgtUrl srcUrl m key issue.body)]

/-- The comment PATCHes of lines 302–332 for one issue's comments. -/
def commentEvs (srcRepo tgtUrl srcUrl : List Char) (m : List (Nat × Nat)) (t : Nat)
    (issue : TIssue) : List PatchEv :=
  issue.commentBodies.filterMap (fun cb =>
    if (findall cb).isEmpty then none
    else some (PatchEv.patchedComment t (patchTargetCommentBody srcRepo tgtUrl srcUrl m cb)))

/-- The `for key in issue_map.keys()` loop.  `world` gives the result of the
GET of a target issue (`none` models a non-200 status).  `prev` is the stale
Python local `issue`: when the fetch fails, the dedented comments section
still runs on `prev` — or raises `UnboundLocalError` (modelled as
`.error ()`) when no previous iteration assigned it. -/
def patchTargetGo (srcRepo tgtUrl srcUrl : List Char) (m : List (Nat × Nat))
    (world : Nat → Option TIssue) :
    List (Nat × Nat) → Option (Nat × TIssue) → Except Unit (List PatchEv)
  | [], _ => .ok []
  | (k, t) :: rest, prev =>
    match world t with
    | some issue =>
      let evs := bodyEvs srcRepo tgtUrl srcUrl m k t issue
        ++ commentEvs srcRepo tgtUrl srcUrl m t issue
      match patchTargetGo srcRepo tgtUrl srcUrl m world rest (some (t, issue)) with
      | .error e => .error e
      | .ok l => .ok (evs ++ l)
    | none =>
      match prev with
      | none => .error ()
      | some pr =>
        let evs := commentEvs srcRepo tgtUrl srcUrl m pr.1 pr.2
        match patchTargetGo srcRepo tgtUrl srcUrl m world rest (some pr) with
        | .error e => .error e
        | .ok l => .ok (evs ++ l)

/-! ### Helper lemmas about the rewriting folds -/

lemma foldl_fixed_of_steps_id {β : Type} (f : List Char → β → List Char) :
    ∀ (ms : List β) (b : List Char), (∀ mt ∈ ms, ∀ nb, f nb mt = nb) →
    ms.foldl f b = b := by
  intro ms
  induction ms with
  | nil => intro b _; rfl
  | cons mt rest ih =>
    intro b h
    have h0 : f b mt = b := h mt (List.mem_cons_self mt rest) b
    have h1 : ∀ x ∈ rest, ∀ nb, f nb x = nb := fun x hx => h x (List.mem_cons_of_mem mt hx)
    simp only [List.foldl_cons, h0]
    exact ih b h1

lemma foldl_congr_of_steps_eq {β : Type} (f g : List Char → β → List Char) :
    ∀ (ms : List β) (b : List Char), (∀ mt ∈ ms, ∀ nb, f nb mt = g nb mt) →
    ms.foldl f b = ms.foldl g b := by
  intro ms
  induction ms with
  | nil => intro b _; rfl
  | cons mt rest ih =>
    intro b h
    have h0 : f b mt = g b mt := h mt (List.mem_cons_self mt rest) b
    have h1 : ∀ x ∈ rest, ∀ nb, f nb x = g nb x := fun x hx => h x (List.mem_cons_of_mem mt hx)
    simp only [List.foldl_cons, h0]
    exact ih (g b mt) h1

/-! ### Claim C5 — per-match rewrite rule of `patch_target_issues` -/

/-- C5 counterexample input: the body `" #5 #55"` of an issue whose source
number (the current key) is 55. -/
def c5Body : List Char := " #5 #55".toList

/-- C5 is refuted as stated: `str.replace` is global, so processing the match
`(" #", "5")` also rewrites the text of the self-reference match
`(" #", "55")` (whose captured number equals the current key 55 and which the
claim says is left untouched): the rewritten body no longer contains
`" #55"`. -/
theorem c5_self_reference_clobbered :
    (" #".toList, "55".toList) ∈ findall c5Body ∧
    digitsToNat "55".toList = 55 ∧
    containsSub
      (patchTargetBody sampleSrcRepo sampleTgtIssuesUrl sampleSrcIssuesUrl [] 55 c5Body)
      " #55".toList = false := by
  refine ⟨by decide, by decide, by decide⟩

/-- C5 (amended): an in-scope match whose number equals the current key
triggers no replacement (so a body all of whose in-scope matches are
self-references is returned unchanged); an in-scope match with `n ≠ key`
triggers a global replacement of its matched text by the target-system URL at
`m(n)` when `n` is mapped and by the source-system URL at `n` otherwise; and
the claim's scenario holds: a body referencing excluded `#17` and included
`#5` (mapped to 9) rewrites `#17` to a source-system URL and `#5` to the
target-system URL at 9. -/
theorem c5_match_rewrite_rule :
    (patchTargetBody sampleSrcRepo sampleTgtIssuesUrl sampleSrcIssuesUrl [(5, 9)] 42
        " see #17 and #5".toList =
      " see https://github.ibm.com/sorg/srcrepo/issues/17 and https://github.ibm.com/torg/trepo/issues/9".toList)
    ∧ (∀ (srcRepo tgtUrl srcUrl body : List Char) (m : List (Nat × Nat)) (key : Nat)
        (mk ds : List Char),
        findall body = [(mk, ds)] → inScopeB srcRepo mk = true → digitsToNat ds ≠ key →
        ∀ t, List.lookup (digitsToNat ds) m = some t →
        patchTargetBody srcRepo tgtUrl srcUrl m key body =
          pyReplace body (mk ++ ds) (refUrl tgtUrl (natToDigits t)))
    ∧ (∀ (srcRepo tgtUrl srcUrl body : List Char) (m : List (Nat × Nat)) (key : Nat)
        (mk ds : List Char),
        findall body = [(mk, ds)] → inScopeB srcRepo mk = true → digitsToNat ds ≠ key →
        List.lookup (digitsToNat ds) m = none →
        patchTargetBody srcRepo tgtUrl srcUrl m key body =
          pyReplace body (mk ++ ds) (refUrl srcUrl ds))
    ∧ (∀ (srcRepo tgtUrl srcUrl body : List Char) (m : List (Nat × Nat)) (key : Nat),
        (∀ mt ∈ findall body, inScopeB srcRepo mt.1 = true → digitsToNat mt.2 = key) →
        patchTargetBody srcRepo tgtUrl srcUrl m key body = body) := by
  refine ⟨by decide, ?_, ?_, ?_⟩
  · intro srcRepo tgtUrl srcUrl body m key mk ds hfind hscope hne t hlook
    unfold patchTargetBody
    rw [hfind]
    simp only [List.foldl_cons, List.foldl_nil, patchStep, hscope, if_neg hne, hlook, if_true]
  · intro srcRepo tgtUrl srcUrl body m key mk ds hfind hscope hne hlook
    unfold patchTargetBody
    rw [hfind]
    simp only [List.foldl_cons, List.foldl_nil, patchStep, hscope, if_neg hne, hlook, if_true]
  · intro srcRepo tgtUrl srcUrl body m key h
    unfold patchTargetBody
    apply foldl_fixed_of_steps_id
    intro mt hmt nb
    unfold patchStep
    by_cases hs : inScopeB srcRepo mt.1
    · rw [if_pos hs, if_pos (h mt hmt hs)]
    · rw [if_neg hs]

/-- Witness for `c5_match_rewrite_rule`: concrete instantiations of the three
quantified conjuncts (the single-match source-URL case on the body `" #7"`
with an empty mapping, the single-match target-URL case with `7 ↦ 3`, and the
all-self-reference case on the same body with key 7). -/
theorem c5_match_rewrite_rule_witness :
    patchTargetBody sampleSrcRepo sampleTgtIssuesUrl sampleSrcIssuesUrl [(7, 3)] 0
        " #7".toList =
      pyReplace " #7".toList (" #".toList ++ "7".toList)
        (refUrl sampleTgtIssuesUrl (natToDigits 3)) ∧
    patchTargetBody sampleSrcRepo sampleTgtIssuesUrl sampleSrcIssuesUrl [] 0 " #7".toList =
      pyReplace " #7".toList (" #".toList ++ "7".toList) (refUrl sampleSrcIssuesUrl "7".toList) ∧
    patchTargetBody sampleSrcRepo sampleTgtIssuesUrl sampleSrcIssuesUrl [] 7 " #7".toList =
      " #7".toList := by
  refine ⟨?_, ?_, ?_⟩
  · exact c5_match_rewrite_rule.2.1 sampleSrcRepo sampleTgtIssuesUrl sampleSrcIssuesUrl
      " #7".toList [(7, 3)] 0 " #".toList "7".toList (by decide) (by decide) (by decide) 3
      (by decide)
  · exact c5_match_rewrite_rule.2.2.1 sampleSrcRepo sampleTgtIssuesUrl sampleSrcIssuesUrl
      " #7".toList [] 0 " #".toList "7".toList (by decide) (by decide) (by decide) (by decide)
  · exact c5_match_rewrite_rule.2.2.2 sampleSrcRepo sampleTgtIssuesUrl sampleSrcIssuesUrl
      " #7".toList [] 7
      (by decide)

/-! ### Claim C6 — idempotence of the rewrite -/

/-- C6 is refuted as stated: rewriting `" #17"` (17 unmapped) produces a
source-system URL, which itself matches `ISSUE_REGEX` with a marker containing
the source-repo token, so a second pass with the same mapping rewrites it
again (prepending another space): rewriting twice differs from rewriting
once. -/
theorem c6_rewrite_not_idempotent :
    patchTargetBody sampleSrcRepo sampleTgtIssuesUrl sampleSrcIssuesUrl [] 1
        (patchTargetBody sampleSrcRepo sampleTgtIssuesUrl sampleSrcIssuesUrl [] 1
          " #17".toList) ≠
      patchTargetBody sampleSrcRepo sampleTgtIssuesUrl sampleSrcIssuesUrl [] 1
        " #17".toList := by
  decide

/-- C6 (amended): rewriting a body none of whose matches is in scope returns
the original text unchanged; but rewriting is not idempotent in general,
because a produced source-system URL is itself an in-scope match of the
reference regex — concretely, one pass turns `" #17"` into a source URL with
one leading space and a second pass rewrites that URL again, yielding two
leading spaces. -/
theorem c6_rewrite_once_vs_twice :
    (∀ (srcRepo tgtUrl srcUrl body : List Char) (m : List (Nat × Nat)) (key : Nat),
        (∀ mt ∈ findall body, inScopeB srcRepo mt.1 = false) →
        patchTargetBody srcRepo tgtUrl srcUrl m key body = body)
    ∧ patchTargetBody sampleSrcRepo sampleTgtIssuesUrl sampleSrcIssuesUrl [] 1
        " #17".toList = " https://github.ibm.com/sorg/srcrepo/issues/17".toList
    ∧ patchTargetBody sampleSrcRepo sampleTgtIssuesUrl sampleSrcIssuesUrl [] 1
        " https://github.ibm.com/sorg/srcrepo/issues/17".toList =
      "  https://github.ibm.com/sorg/srcrepo/issues/17".toList := by
  refine ⟨?_, by decide, by decide⟩
  intro srcRepo tgtUrl srcUrl body m key h
  unfold patchTargetBody
  apply foldl_fixed_of_steps_id
  intro mt hmt nb
  unfold patchStep
  rw [h mt hmt]
  simp

/-- Witness for `c6_rewrite_once_vs_twice`: the body
`"otherrepo/issues/3 x"` has a match, but its marker neither strips to `#`
nor contains the source-repo token `srcrepo`, so the rewrite leaves the body
unchanged. -/
theorem c6_rewrite_once_vs_twice_witness :
    patchTargetBody sampleSrcRepo sampleTgtIssuesUrl sampleSrcIssuesUrl [(3, 8)] 0
        "otherrepo/issues/3 x".toList = "otherrepo/issues/3 x".toList :=
  c6_rewrite_once_vs_twice.1 sampleSrcRepo sampleTgtIssuesUrl sampleSrcIssuesUrl
    "otherrepo/issues/3 x".toList [(3, 8)] 0 (by decide)

/-! ### Claim C7 — source-side pass versus target-side rule -/

/-- C7 is refuted as stated: on the body `" #17"` with an empty mapping the
source-side pass leaves the unmapped reference untouched (its lookup branch
has no `else`), while the target-side rule redirects it to a source-system
URL. -/
theorem c7_source_pass_differs :
    patchSourceBody sampleSrcRepo sampleTgtIssuesUrl [] " #17".toList = " #17".toList ∧
    patchSourceBody sampleSrcRepo sampleTgtIssuesUrl [] " #17".toList ≠
      patchTargetBody sampleSrcRepo sampleTgtIssuesUrl sampleSrcIssuesUrl [] 0
        " #17".toList := by
  refine ⟨by decide, by decide⟩

/-- C7 (amended): the source-side pass rewrites mapped in-scope references
exactly as the target-side rule, but it leaves references absent from the
mapping untouched and applies no self-reference guard; consequently the two
passes agree on every text all of whose in-scope references are mapped and
distinct from the target pass's current key. -/
theorem c7_source_pass_agrees_on_mapped :
    ∀ (srcRepo tgtUrl srcUrl body : List Char) (m : List (Nat × Nat)) (key : Nat),
    (∀ mt ∈ findall body, inScopeB srcRepo mt.1 = true →
      digitsToNat mt.2 ≠ key ∧ ∃ t, List.lookup (digitsToNat mt.2) m = some t) →
    patchSourceBody srcRepo tgtUrl m body =
      patchTargetBody srcRepo tgtUrl srcUrl m key body := by
  intro srcRepo tgtUrl srcUrl body m key h
  unfold patchSourceBody patchTargetBody
  apply foldl_congr_of_steps_eq
  intro mt hmt nb
  unfold patchSourceStep patchStep
  by_cases hs : inScopeB srcRepo mt.1
  · obtain ⟨hne, t, ht⟩ := h mt hmt hs
    rw [if_pos hs, if_pos hs, if_neg hne, ht]
  · rw [if_neg hs, if_neg hs]

/-- Witness for `c7_source_pass_agrees_on_mapped`: on the body `" #5"` with
mapping `5 ↦ 9` and key 0 the two passes coincide. -/
theorem c7_source_pass_agrees_on_mapped_witness :
    patchSourceBody sampleSrcRepo sampleTgtIssuesUrl [(5, 9)] " #5".toList =
      patchTargetBody sampleSrcRepo sampleTgtIssuesUrl sampleSrcIssuesUrl [(5, 9)] 0
        " #5".toList :=
  c7_source_pass_agrees_on_mapped sampleSrcRepo sampleTgtIssuesUrl sampleSrcIssuesUrl
    " #5".toList [(5, 9)] 0
    (by
      intro mt hmt hs
      have hf : findall " #5".toList = [(" #".toList, "5".toList)] := by decide
      rw [hf] at hmt
      have hmt' : mt = (" #".toList, "5".toList) := by simpa using hmt
      subst hmt'
      exact ⟨by decide, 9, by decide⟩)

/-! ### Claim C1 — the `finally` block of `main` and partial maps -/

/-- C1 run that exhibits the bug: issue 1 is created as target issue 10
(HTTP 201), then a transport exception is raised while posting issue 2. -/
def c1Steps : List IssueStep :=
  [⟨⟨1, []⟩, CreateOut.created 10, true⟩, ⟨⟨2, []⟩, CreateOut.raised, true⟩]

/-- C1 fails on the code: when an exception propagates out of `write_issues`,
the dict accumulated inside it — here already holding the entry `1 ↦ 10` for
the issue created before the failure — is lost, because `main` line 497 only
assigns `issue_map` from the *return value* of `write_issues`; the `finally`
block (lines 517–521) then prints the still-initial empty value, contradicting
both the claim and the code's own comment ("This way we know which issues we
copied").  Failures in phases *after* `write_issues` do print the full map. -/
theorem c1_finally_prints_empty_on_write_failure :
    (writeIssues c1Steps).issueMap = [(1, 10)] ∧
    (writeIssues c1Steps).raised = true ∧
    mainPrintedMap c1Steps = [] ∧
    mainPrintedMap [⟨⟨1, []⟩, CreateOut.created 10, true⟩] = [(1, 10)] := by
  refine ⟨by decide, by decide, by decide, by decide⟩

/-! ### Claim C9 — comment copying in `write_issues` -/

def c9Comment1 : SrcComment :=
  ⟨"alice".toList, "2022-04-08T12:00:00Z".toList, "hello".toList⟩

def c9Comment2 : SrcComment :=
  ⟨"bob".toList, "2022-12-31T01:02:03Z".toList, "bye".toList⟩

/-- C9 source issue whose comments resource spans two pages. -/
def c9Issue : SrcIssue := ⟨1, [[c9Comment1], [c9Comment2]]⟩

/-- C9 fails on the code: `write_issues` fetches the comments with a single
plain `requests.get` (line 232) instead of the repository's own paginated
`gh.makeCall`, so only the first page of comments is copied.  For a source
issue with two comments on two pages, exactly one comment is posted to the
target (with the correct provenance prefix and order), not both. -/
theorem c9_only_first_comment_page_copied :
    (writeIssues [⟨c9Issue, CreateOut.created 10, true⟩]).posted =
      [(10, formatComment c9Comment1)] ∧
    c9Issue.commentPages.flatten = [c9Comment1, c9Comment2] ∧
    (writeIssues [⟨c9Issue, CreateOut.created 10, true⟩]).posted.length ≠
      c9Issue.commentPages.flatten.length := by
  refine ⟨by decide, by decide, by decide⟩

/-! ### Claim C10 — per-entity failure tolerance of `patch_target_issues` -/

/-- C10 target issue used in the second scenario: no references in the body,
one comment with an in-scope reference. -/
def c10Issue : TIssue := ⟨"x".toList, [" #3".toList]⟩

def c10World : Nat → Option TIssue :=
  fun t => if t = 10 then some c10Issue else none

/-- C10 fails on the code: the comments section of `patch_target_issues`
(lines 302–334) is dedented outside the `if response.status_code != 200`
check, so a non-200 response when fetching a target issue does *not* merely
skip that issue.  On the first loop iteration the Python local `issue` is
unbound and the phase aborts with `UnboundLocalError` (first conjunct); on a
later iteration the stale `issue` from the previous iteration is reprocessed,
patching the previous issue's comments a second time instead of skipping
(second conjunct: the same comment-patch event appears twice). -/
theorem c10_failed_fetch_not_skipped :
    patchTargetGo sampleSrcRepo sampleTgtIssuesUrl sampleSrcIssuesUrl [(1, 10)]
        (fun _ => none) [(1, 10)] none = .error () ∧
    patchTargetGo sampleSrcRepo sampleTgtIssuesUrl sampleSrcIssuesUrl [(1, 10), (2, 20)]
        c10World [(1, 10), (2, 20)] none =
      .ok [PatchEv.patchedComment 10
            (patchTargetCommentBody sampleSrcRepo sampleTgtIssuesUrl sampleSrcIssuesUrl
              [(1, 10), (2, 20)] " #3".toList),
          PatchEv.patchedComment 10
            (patchTargetCommentBody sampleSrcRepo sampleTgtIssuesUrl sampleSrcIssuesUrl
              [(1, 10), (2, 20)] " #3".toList)] := by
  refine ⟨by rfl, by rfl⟩

/-! ### Step lemmas for the `makeCall` machine -/

lemma mcGo_url_none (number : Option Nat) (script : List (HResp α)) (res : List α)
    (t : Nat) (rq : List (Nat × Nat)) :
    mcGo number script ⟨none, res, t, rq⟩ = .ok ⟨none, res, t, rq⟩ := by
  cases script <;> rfl

lemma mcGo_cap (number : Option Nat) (script : List (HResp α)) (u : Nat) (res : List α)
    (t : Nat) (rq : List (Nat × Nat)) (hcap : capReached number res = true) :
    mcGo number script ⟨some u, res, t, rq⟩ = .ok ⟨some u, res, t, rq⟩ := by
  conv_lhs => rw [mcGo.eq_1]
  simp only [hcap, if_true]

lemma mcGo_step_200 (number : Option Nat) (r : HResp α) (rest : List (HResp α)) (u : Nat)
    (res : List α) (t : Nat) (rq : List (Nat × Nat))
    (hcap : capReached number res = false) (h200 : r.status = 200) :
    mcGo number (r :: rest) ⟨some u, res, t, rq⟩ =
      mcGo number rest ⟨r.next, res ++ r.items, t, rq ++ [(u, t)]⟩ := by
  conv_lhs => rw [mcGo.eq_1]
  simp only [hcap, h200, Bool.false_eq_true, if_false, if_true, if_pos rfl]

lemma mcGo_step_rate (number : Option Nat) (r : HResp α) (rest : List (HResp α)) (u : Nat)
    (res : List α) (t : Nat) (rq : List (Nat × Nat))
    (hcap : capReached number res = false) (h403 : r.status = 403) (hrem : r.remaining = 0) :
    mcGo number (r :: rest) ⟨some u, res, t, rq⟩ =
      mcGo number rest ⟨some u, res, t + (r.reset - t), rq ++ [(u, t)]⟩ := by
  conv_lhs => rw [mcGo.eq_1]
  simp only [hcap, h403, hrem, Bool.false_eq_true, if_false, if_true, if_pos rfl]
  norm_num

lemma mcGo_step_403_fatal (number : Option Nat) (r : HResp α) (rest : List (HResp α))
    (u : Nat) (res : List α) (t : Nat) (rq : List (Nat × Nat))
    (hcap : capReached number res = false) (h403 : r.status = 403) (hrem : r.remaining ≠ 0) :
    mcGo number (r :: rest) ⟨some u, res, t, rq⟩ = .error (MCErr.fatal r.status u) := by
  conv_lhs => rw [mcGo.eq_1]
  simp only [hcap, h403, Bool.false_eq_true, if_false, if_true, if_neg hrem]
  norm_num

lemma mcGo_step_409 (number : Option Nat) (r : HResp α) (rest : List (HResp α)) (u : Nat)
    (res : List α) (t : Nat) (rq : List (Nat × Nat))
    (hcap : capReached number res = false) (h409 : r.status = 409) :
    mcGo number (r :: rest) ⟨some u, res, t, rq⟩ =
      .ok ⟨none, res, t, rq ++ [(u, t)]⟩ := by
  conv_lhs => rw [mcGo.eq_1]
  simp only [hcap, h409, Bool.false_eq_true, if_false, if_true]
  norm_num
  exact mcGo_url_none number rest res t (rq ++ [(u, t)])

lemma mcGo_step_other (number : Option Nat) (r : HResp α) (rest : List (HResp α)) (u : Nat)
    (res : List α) (t : Nat) (rq : List (Nat × Nat))
    (hcap : capReached number res = false) (h200 : r.status ≠ 200) (h403 : r.status ≠ 403)
    (h409 : r.status ≠ 409) :
    mcGo number (r :: rest) ⟨some u, res, t, rq⟩ = .error (MCErr.fatal r.status u) := by
  conv_lhs => rw [mcGo.eq_1]
  simp only [hcap, Bool.false_eq_true, if_false, if_neg h200, if_neg h403, if_neg h409]

lemma mcGo_nil_some (number : Option Nat) (u : Nat) (res : List α) (t : Nat)
    (rq : List (Nat × Nat)) (hcap : capReached number res = false) :
    mcGo number ([] : List (HResp α)) ⟨some u, res, t, rq⟩ = .error MCErr.scriptEnded := by
  conv_lhs => rw [mcGo.eq_1]
  simp only [hcap, Bool.false_eq_true, if_false]

lemma okReqs_cons (p : List α) (pages : List (List α)) (u t : Nat) :
    okReqs (p :: pages) u t = (u, t) :: okReqs pages (u + 1) t := by
  unfold okReqs
  simp only [List.length_cons, List.range_succ_eq_map, List.map_cons, List.map_map, Nat.add_zero]
  congr 1
  apply List.map_congr_left
  intro i _
  simp only [Function.comp_apply]
  congr 1
  omega

/-- Consuming an uncapped run of successful pages: results are appended in
order and one request per page is issued. -/
lemma mcGo_okScript (pages : List (List α)) :
    ∀ (u : Nat) (res : List α) (t : Nat) (rq : List (Nat × Nat)), pages ≠ [] →
    mcGo none (okScript pages u) ⟨some u, res, t, rq⟩ =
      .ok ⟨none, res ++ pages.flatten, t, rq ++ okReqs pages u t⟩ := by
  induction pages with
  | nil => intro u res t rq h; exact absurd rfl h
  | cons p rest ih =>
    intro u res t rq _
    match rest with
    | [] =>
      rw [show okScript [p] u = [⟨200, 0, 0, p, none⟩] from rfl]
      rw [mcGo_step_200 none ⟨200, 0, 0, p, none⟩ [] u res t rq rfl rfl]
      rw [mcGo_url_none]
      simp [okReqs, List.range_succ]
    | q :: rest2 =>
      rw [show okScript (p :: q :: rest2) u =
        ⟨200, 0, 0, p, some (u + 1)⟩ :: okScript (q :: rest2) (u + 1) from rfl]
      rw [mcGo_step_200 none ⟨200, 0, 0, p, some (u + 1)⟩ _ u res t rq rfl rfl]
      rw [ih (u + 1) (res ++ p) t (rq ++ [(u, t)]) (by simp)]
      rw [okReqs_cons p (q :: rest2) u t]
      simp

/-- Consuming a capped run of successful pages: the loop breaks as soon as
the accumulated length reaches the cap; `pagedAccum` and `pagedReqs` describe
the final results and the number of requests issued. -/
lemma mcGo_okScript_cap (n : Nat) (pages : List (List α)) :
    ∀ (u : Nat) (res : List α) (t : Nat) (rq : List (Nat × Nat)), pages ≠ [] →
    ∃ st', mcGo (some n) (okScript pages u) ⟨some u, res, t, rq⟩ = .ok st' ∧
      st'.results = pagedAccum n pages res ∧
      st'.reqs.length = rq.length + pagedReqs n pages res := by
  induction pages with
  | nil => intro u res t rq h; exact absurd rfl h
  | cons p rest ih =>
    intro u res t rq _
    by_cases hcap : n ≤ res.length
    · refine ⟨⟨some u, res, t, rq⟩, ?_, ?_, ?_⟩
      · exact mcGo_cap (some n) _ u res t rq (by simp [capReached, hcap])
      · simp [pagedAccum, if_pos hcap]
      · simp [pagedReqs, if_pos hcap]
    · have hcap' : capReached (some n) res = false := by
        simp [capReached, Nat.ble_eq]
        omega
      match rest with
      | [] =>
        rw [show okScript [p] u = [⟨200, 0, 0, p, none⟩] from rfl]
        refine ⟨⟨none, res ++ p, t, rq ++ [(u, t)]⟩, ?_, ?_, ?_⟩
        · rw [mcGo_step_200 (some n) ⟨200, 0, 0, p, none⟩ [] u res t rq hcap' rfl]
          exact mcGo_url_none _ _ _ _ _
        · simp [pagedAccum, if_neg hcap]
        · simp [pagedReqs, if_neg hcap]
      | q :: rest2 =>
        rw [show okScript (p :: q :: rest2) u =
          ⟨200, 0, 0, p, some (u + 1)⟩ :: okScript (q :: rest2) (u + 1) from rfl]
        rw [mcGo_step_200 (some n) ⟨200, 0, 0, p, some (u + 1)⟩ _ u res t rq hcap' rfl]
        obtain ⟨st', heq, hres, hreq⟩ := ih (u + 1) (res ++ p) t (rq ++ [(u, t)]) (by simp)
        refine ⟨st', heq, ?_, ?_⟩
        · rw [hres]; simp [pagedAccum, if_neg hcap]
        · rw [hreq]; simp [pagedReqs, if_neg hcap]; omega

/-- The capped accumulation is a prefix of the full flattened item list. -/
lemma pagedAccum_append_eq (n : Nat) (pages : List (List α)) :
    ∀ res : List α, ∃ suffix, pagedAccum n pages res ++ suffix = res ++ pages.flatten := by
  induction pages with
  | nil => intro res; exact ⟨[], by simp [pagedAccum]⟩
  | cons p rest ih =>
    intro res
    by_cases hcap : n ≤ res.length
    · exact ⟨(p :: rest).flatten, by simp [pagedAccum, if_pos hcap]⟩
    · obtain ⟨suffix, hs⟩ := ih (res ++ p)
      refine ⟨suffix, ?_⟩
      simp only [pagedAccum, if_neg hcap]
      rw [hs]
      simp

/-- If the loop never reached the cap, it consumed every page. -/
lemma pagedAccum_all_of_short (n : Nat) (pages : List (List α)) :
    ∀ res : List α, (pagedAccum n pages res).length < n →
    pagedAccum n pages res = res ++ pages.flatten := by
  induction pages with
  | nil => intro res _; simp [pagedAccum]
  | cons p rest ih =>
    intro res hlt
    by_cases hcap : n ≤ res.length
    · exfalso
      simp only [pagedAccum, if_pos hcap] at hlt
      omega
    · simp only [pagedAccum, if_neg hcap] at hlt ⊢
      rw [ih (res ++ p) hlt]
      simp

/-- Once at least `n` items have been accumulated after `k` pages, no further
page is fetched. -/
lemma pagedReqs_le (n : Nat) (pages : List (List α)) :
    ∀ (res : List α) (k : Nat), n ≤ res.length + ((pages.take k).flatten).length →
    pagedReqs n pages res ≤ k := by
  induction pages with
  | nil => intro res k _; simp [pagedReqs]
  | cons p rest ih =>
    intro res k h
    by_cases hcap : n ≤ res.length
    · simp [pagedReqs, if_pos hcap]
    · match k with
      | 0 =>
        exfalso
        simp at h
        omega
      | k' + 1 =>
        simp only [pagedReqs, if_neg hcap]
        have h' : n ≤ (res ++ p).length + ((rest.take k').flatten).length := by
          simp only [List.take_succ_cons, List.flatten_cons, List.length_append] at h
          simp only [List.length_append]
          omega
        have := ih (res ++ p) k' h'
        omega

/-! ### Claim C2 — pagination completeness and the item cap -/

/-- C2 holds: over any sequence of successful pages, an uncapped `makeCall`
returns the concatenation of all pages in order; a capped call returns
exactly the first `max_items` items of that concatenation (the result is
truncated whenever more was accumulated); and pagination stops fetching as
soon as at least `max_items` items have been accumulated — after any `k`
pages that already contain `max_items` items, at most `k` requests are
issued. -/
theorem c2_pagination_completeness :
    (∀ (pages : List (List Nat)) (t0 : Nat), pages ≠ [] →
      makeCallResults none (okScript pages 0) 0 t0 = .ok pages.flatten)
    ∧ (∀ (pages : List (List Nat)) (n t0 : Nat), pages ≠ [] →
      makeCallResults (some n) (okScript pages 0) 0 t0 = .ok (pages.flatten.take n))
    ∧ (∀ (pages : List (List Nat)) (n k t0 : Nat), pages ≠ [] →
      n ≤ ((pages.take k).flatten).length →
      mcReqCount (some n) (okScript pages 0) 0 t0 ≤ k) := by
  refine ⟨?_, ?_, ?_⟩
  · intro pages t0 hne
    unfold makeCallResults initState
    rw [mcGo_okScript pages 0 [] t0 [] hne]
    simp
  · intro pages n t0 hne
    unfold makeCallResults initState
    obtain ⟨st', heq, hres, _⟩ := mcGo_okScript_cap n pages 0 [] t0 [] hne
    rw [heq]
    dsimp only
    by_cases hlt : st'.results.length < n
    · rw [if_pos hlt]
      have hall : pagedAccum n pages ([] : List Nat) = [] ++ pages.flatten :=
        pagedAccum_all_of_short n pages [] (by rw [← hres]; exact hlt)
      rw [hres, hall]
      simp only [List.nil_append]
      rw [List.take_of_length_le]
      rw [hres, hall] at hlt
      simp only [List.nil_append] at hlt
      omega
    · rw [if_neg hlt]
      obtain ⟨suffix, hs⟩ := pagedAccum_append_eq n pages ([] : List Nat)
      simp only [List.nil_append] at hs
      rw [hres, ← hs, List.take_append_of_le_length]
      rw [← hres]
      omega
  · intro pages n k t0 hne h
    unfold mcReqCount mcReqs initState
    obtain ⟨st', heq, _, hreq⟩ := mcGo_okScript_cap n pages 0 [] t0 [] hne
    rw [heq]
    simp only [List.length_nil, Nat.zero_add] at hreq
    rw [hreq]
    exact pagedReqs_le n pages [] k (by simpa using h)

/-- Witness for `c2_pagination_completeness`: the API serves items
`[1, 2, 3]` over two pages; the uncapped call returns all three in order, a
cap of 2 returns `[1, 2]`, and with the cap already reached after 2 pages at
most 2 requests are issued. -/
theorem c2_pagination_completeness_witness :
    makeCallResults none (okScript [[1], [2, 3]] 0) 0 7 = .ok [1, 2, 3] ∧
    makeCallResults (some 2) (okScript [[1], [2, 3]] 0) 0 7 = .ok [1, 2] ∧
    mcReqCount (some 2) (okScript [[1], [2, 3]] 0) 0 7 ≤ 2 := by
  refine ⟨?_, ?_, ?_⟩
  · have h := c2_pagination_completeness.1 [[1], [2, 3]] 7 (by decide)
    simpa using h
  · have h := c2_pagination_completeness.2.1 [[1], [2, 3]] 2 7 (by decide)
    simpa using h
  · exact c2_pagination_completeness.2.2 [[1], [2, 3]] 2 2 7 (by decide) (by decide)

/-! ### Claim C3 — rate-limit suspension and resumption -/

/-- C3 script exhibiting a resumption at exactly the reset time: page at URL 0
(time 5), rate-limit response with reset 100 at URL 1, then the reissued
request at URL 1. -/
def c3Script : List (HResp Nat) :=
  [⟨200, 0, 0, [7], some 1⟩, ⟨403, 0, 100, [], none⟩, ⟨200, 0, 0, [8], none⟩]

/-- C3 is refuted as stated: the code computes the wait as
`reset - now` and adds no safety margin, so the resumed request is issued at
exactly the reset time `T = 100`, not strictly after it — the request trace
contains a request that is neither a pre-rate-limit request (time 5) nor
strictly later than `T`. -/
theorem c3_resume_has_no_margin :
    mcReqs none c3Script 0 5 = [(0, 5), (1, 5), (1, 100)] ∧
    ¬ (∀ p ∈ mcReqs none c3Script 0 5, p.2 = 5 ∨ 100 < p.2) := by
  refine ⟨by rfl, by decide⟩

/-- C3 (amended): on a 403 response with zero remaining quota and reset
timestamp `T` not in the past, the client advances its clock to exactly `T`
(the computed wait is `reset - now`; no margin is added) while keeping the
pending URL and the accumulated results unchanged; every request issued by
the rest of a successful run happens at or after the clock of its starting
state — so no request is issued before `T` after a suspension; and a
paginated run interrupted by such a 403 reissues the same URL at time `T` and
returns the concatenation of the two pages with nothing duplicated or
skipped. -/
theorem c3_rate_limit_resumption :
    (∀ (number : Option Nat) (r : HResp Nat) (rest : List (HResp Nat)) (u : Nat)
        (res : List Nat) (t : Nat) (rq : List (Nat × Nat)),
      capReached number res = false → r.status = 403 → r.remaining = 0 → t ≤ r.reset →
      mcGo number (r :: rest) ⟨some u, res, t, rq⟩ =
        mcGo number rest ⟨some u, res, r.reset, rq ++ [(u, t)]⟩)
    ∧ (∀ (number : Option Nat) (script : List (HResp Nat)) (st st' : MCState Nat),
      mcGo number script st = .ok st' →
      ∀ p ∈ st'.reqs, p ∈ st.reqs ∨ st.clock ≤ p.2)
    ∧ (∀ (p1 p2 : List Nat) (T u0 t0 : Nat), t0 ≤ T →
      makeCallResults none
          [⟨200, 0, 0, p1, some (u0 + 1)⟩, ⟨403, 0, T, [], none⟩, ⟨200, 0, 0, p2, none⟩]
          u0 t0 = .ok (p1 ++ p2)
      ∧ mcReqs none
          [⟨200, 0, 0, p1, some (u0 + 1)⟩, ⟨403, 0, T, [], none⟩, ⟨200, 0, 0, p2, none⟩]
          u0 t0 = [(u0, t0), (u0 + 1, t0), (u0 + 1, T)]) := by
  refine ⟨?_, ?_, ?_⟩
  · intro number r rest u res t rq hcap h403 hrem hle
    have ht : t + (r.reset - t) = r.reset := by omega
    rw [mcGo_step_rate number r rest u res t rq hcap h403 hrem, ht]
  · intro number script
    induction script with
    | nil =>
      intro st st' heq p hp
      obtain ⟨url, res, t, rq⟩ := st
      match url with
      | none =>
        rw [mcGo_url_none] at heq
        cases heq
        exact Or.inl hp
      | some u =>
        by_cases hcap : capReached number res = true
        · rw [mcGo_cap number [] u res t rq hcap] at heq
          cases heq
          exact Or.inl hp
        · rw [mcGo_nil_some number u res t rq (by simpa using hcap)] at heq
          cases heq
    | cons r rest ih =>
      intro st st' heq p hp
      obtain ⟨url, res, t, rq⟩ := st
      match url with
      | none =>
        rw [mcGo_url_none] at heq
        cases heq
        exact Or.inl hp
      | some u =>
        by_cases hcap : capReached number res = true
        · rw [mcGo_cap number (r :: rest) u res t rq hcap] at heq
          cases heq
          exact Or.inl hp
        · have hcap' : capReached number res = false := by simpa using hcap
          by_cases h200 : r.status = 200
          · rw [mcGo_step_200 number r rest u res t rq hcap' h200] at heq
            rcases ih _ _ heq p hp with hin | hclk
            · simp only [List.mem_append, List.mem_singleton] at hin
              rcases hin with hin | rfl
              · exact Or.inl hin
              · exact Or.inr (le_refl t)
            · exact Or.inr hclk
          · by_cases h403 : r.status = 403
            · by_cases hrem : r.remaining = 0
              · rw [mcGo_step_rate number r rest u res t rq hcap' h403 hrem] at heq
                rcases ih _ _ heq p hp with hin | hclk
                · simp only [List.mem_append, List.mem_singleton] at hin
                  rcases hin with hin | rfl
                  · exact Or.inl hin
                  · exact Or.inr (le_refl t)
                · exact Or.inr (le_trans (Nat.le_add_right t _) hclk)
              · rw [mcGo_step_403_fatal number r rest u res t rq hcap' h403 hrem] at heq
                cases heq
            · by_cases h409 : r.status = 409
              · rw [mcGo_step_409 number r rest u res t rq hcap' h409] at heq
                cases heq
                simp only [List.mem_append, List.mem_singleton] at hp
                rcases hp with hin | rfl
                · exact Or.inl hin
                · exact Or.inr (le_refl t)
              · rw [mcGo_step_other number r rest u res t rq hcap' h200 h403 h409] at heq
                cases heq
  · intro p1 p2 T u0 t0 hle
    have hrun : mcGo none
        [(⟨200, 0, 0, p1, some (u0 + 1)⟩ : HResp Nat), ⟨403, 0, T, [], none⟩,
          ⟨200, 0, 0, p2, none⟩] ⟨some u0, [], t0, []⟩ =
        .ok ⟨none, p1 ++ p2, T, [(u0, t0), (u0 + 1, t0), (u0 + 1, T)]⟩ := by
      rw [mcGo_step_200 none ⟨200, 0, 0, p1, some (u0 + 1)⟩
        [⟨403, 0, T, [], none⟩, ⟨200, 0, 0, p2, none⟩] u0 [] t0 [] rfl rfl]
      simp only [List.nil_append]
      rw [mcGo_step_rate none ⟨403, 0, T, [], none⟩ [⟨200, 0, 0, p2, none⟩]
        (u0 + 1) p1 t0 [(u0, t0)] rfl rfl rfl]
      dsimp only
      rw [show t0 + (T - t0) = T from by omega]
      simp only [List.singleton_append]
      rw [mcGo_step_200 none ⟨200, 0, 0, p2, none⟩ [] (u0 + 1) p1 T
        [(u0, t0), (u0 + 1, t0)] rfl rfl]
      dsimp only
      rw [mcGo_url_none]
      simp
    constructor
    · unfold makeCallResults initState
      rw [hrun]
    · unfold mcReqs initState
      rw [hrun]

/-- Witness for `c3_rate_limit_resumption`: concrete instantiations — the
rate step at reset 100 from clock 5, a membership fact produced by the trace
bound, and the resumption run with pages `[7]` and `[8]`. -/
theorem c3_rate_limit_resumption_witness :
    mcGo none [(⟨403, 0, 100, [], none⟩ : HResp Nat)] ⟨some 1, [7], 5, [(0, 5)]⟩ =
      mcGo none [] (⟨some 1, [7], 100, [(0, 5), (1, 5)]⟩ : MCState Nat) ∧
    ((0, 5) ∈ (initState 0 5 : MCState Nat).reqs ∨ 5 ≤ 5) ∧
    makeCallResults none c3Script 0 5 = .ok [7, 8] ∧
    mcReqs none c3Script 0 5 = [(0, 5), (1, 5), (1, 100)] := by
  refine ⟨?_, ?_, ?_, ?_⟩
  · exact c3_rate_limit_resumption.1 none ⟨403, 0, 100, [], none⟩ [] 1 [7] 5 [(0, 5)]
      rfl rfl rfl (by decide)
  · exact c3_rate_limit_resumption.2.1 none c3Script (initState 0 5)
      ⟨none, [7, 8], 100, [(0, 5), (1, 5), (1, 100)]⟩ (by rfl) (0, 5) (by decide)
  · exact (c3_rate_limit_resumption.2.2 [7] [8] 100 0 5 (by omega)).1
  · exact (c3_rate_limit_resumption.2.2 [7] [8] 100 0 5 (by omega)).2

/-! ### Claim C4 — exact status-code dispatch -/

lemma mcGo_okScriptCont (pages : List (List α)) :
    ∀ (u : Nat) (res : List α) (t : Nat) (rq : List (Nat × Nat)) (rest2 : List (HResp α)),
    mcGo none (okScriptCont pages u ++ rest2) ⟨some u, res, t, rq⟩ =
      mcGo none rest2 ⟨some (u + pages.length), res ++ pages.flatten, t, rq ++ okReqs pages u t⟩ := by
  induction pages with
  | nil =>
    intro u res t rq rest2
    simp [okScriptCont, okReqs]
  | cons p rest ih =>
    intro u res t rq rest2
    rw [show okScriptCont (p :: rest) u ++ rest2 =
      ⟨200, 0, 0, p, some (u + 1)⟩ :: (okScriptCont rest (u + 1) ++ rest2) from by
        simp [okScriptCont]]
    rw [mcGo_step_200 none ⟨200, 0, 0, p, some (u + 1)⟩ _ u res t rq rfl rfl]
    rw [ih (u + 1) (res ++ p) t (rq ++ [(u, t)]) rest2]
    rw [okReqs_cons]
    simp only [List.length_cons, List.flatten_cons, List.append_assoc, List.cons_append,
      List.nil_append]
    rw [show u + 1 + rest.length = u + (rest.length + 1) from by omega]

/-- C4 holds: the machine dispatches on the response status exactly as the
contract requires — 200 appends the page items and advances the cursor to the
link-header successor; 403 with nonzero remaining quota is a fatal error
carrying status and URL; 409 terminates the loop successfully with exactly
the previously accumulated results (shown both as a single step and
end-to-end: a 409 after any pages returns their concatenation, ignoring any
further scripted responses); and any status other than 200, 403 and 409 is a
fatal error carrying status and URL. -/
theorem c4_status_code_contract :
    (∀ (number : Option Nat) (r : HResp Nat) (rest : List (HResp Nat)) (u : Nat)
        (res : List Nat) (t : Nat) (rq : List (Nat × Nat)),
      capReached number res = false → r.status = 200 →
      mcGo number (r :: rest) ⟨some u, res, t, rq⟩ =
        mcGo number rest ⟨r.next, res ++ r.items, t, rq ++ [(u, t)]⟩)
    ∧ (∀ (number : Option Nat) (r : HResp Nat) (rest : List (HResp Nat)) (u : Nat)
        (res : List Nat) (t : Nat) (rq : List (Nat × Nat)),
      capReached number res = false → r.status = 403 → r.remaining ≠ 0 →
      mcGo number (r :: rest) ⟨some u, res, t, rq⟩ = .error (MCErr.fatal r.status u))
    ∧ (∀ (number : Option Nat) (r : HResp Nat) (rest : List (HResp Nat)) (u : Nat)
        (res : List Nat) (t : Nat) (rq : List (Nat × Nat)),
      capReached number res = false → r.status = 409 →
      mcGo number (r :: rest) ⟨some u, res, t, rq⟩ = .ok ⟨none, res, t, rq ++ [(u, t)]⟩)
    ∧ (∀ (pages : List (List Nat)) (r : HResp Nat) (junk : List (HResp Nat)) (t0 : Nat),
      r.status = 409 →
      makeCallResults none (okScriptCont pages 0 ++ r :: junk) 0 t0 = .ok pages.flatten)
    ∧ (∀ (number : Option Nat) (r : HResp Nat) (rest : List (HResp Nat)) (u : Nat)
        (res : List Nat) (t : Nat) (rq : List (Nat × Nat)),
      capReached number res = false → r.status ≠ 200 → r.status ≠ 403 → r.status ≠ 409 →
      mcGo number (r :: rest) ⟨some u, res, t, rq⟩ = .error (MCErr.fatal r.status u)) := by
  refine ⟨mcGo_step_200, mcGo_step_403_fatal, mcGo_step_409, ?_, mcGo_step_other⟩
  intro pages r junk t0 h409
  unfold makeCallResults initState
  rw [mcGo_okScriptCont pages 0 [] t0 [] (r :: junk)]
  rw [mcGo_step_409 none r junk (0 + pages.length) ([] ++ pages.flatten) t0
    ([] ++ okReqs pages 0 t0) rfl h409]
  simp

/-- Witness for `c4_status_code_contract`: each dispatch case instantiated on
a concrete response — a 200 page `[3]`, a 403 with remaining quota 2, a 409
after one page `[4]` both as a step and end-to-end, and a 500. -/
theorem c4_status_code_contract_witness :
    mcGo none [(⟨200, 0, 0, [3], none⟩ : HResp Nat)] ⟨some 0, [], 9, []⟩ =
      mcGo none [] (⟨none, [] ++ [3], 9, [(0, 9)]⟩ : MCState Nat) ∧
    mcGo none [(⟨403, 2, 0, [], none⟩ : HResp Nat)] ⟨some 0, [], 9, []⟩ =
      .error (MCErr.fatal 403 0) ∧
    mcGo none [(⟨409, 0, 0, [], none⟩ : HResp Nat)] ⟨some 5, [4], 9, []⟩ =
      .ok ⟨none, [4], 9, [(5, 9)]⟩ ∧
    makeCallResults none (okScriptCont [[4]] 0 ++ (⟨409, 0, 0, [], none⟩ : HResp Nat) ::
      [⟨500, 0, 0, [], none⟩]) 0 9 = .ok [4] ∧
    mcGo none [(⟨500, 0, 0, [], none⟩ : HResp Nat)] ⟨some 0, [], 9, []⟩ =
      .error (MCErr.fatal 500 0) := by
  refine ⟨?_, ?_, ?_, ?_, ?_⟩
  · exact c4_status_code_contract.1 none ⟨200, 0, 0, [3], none⟩ [] 0 [] 9 [] rfl rfl
  · have h := c4_status_code_contract.2.1 none ⟨403, 2, 0, [], none⟩ [] 0 [] 9 [] rfl rfl
      (by decide)
    simpa using h
  · exact c4_status_code_contract.2.2.1 none ⟨409, 0, 0, [], none⟩ [] 5 [4] 9 [] rfl rfl
  · have h := c4_status_code_contract.2.2.2.1 [[4]] ⟨409, 0, 0, [], none⟩
      [⟨500, 0, 0, [], none⟩] 9 rfl
    simpa using h
  · have h := c4_status_code_contract.2.2.2.2 none ⟨500, 0, 0, [], none⟩ [] 0 [] 9 [] rfl
      (by decide) (by decide) (by decide)
    simpa using h

/-! ### Claim C8 — invariants of the Identifier Mapping -/

lemma dictInsert_of_not_mem (k v : Nat) (m : List (Nat × Nat))
    (h : ∀ p ∈ m, p.1 ≠ k) : dictInsert k v m = m ++ [(k, v)] := by
  unfold dictInsert
  rw [if_neg]
  simp only [List.any_eq_true, beq_iff_eq, not_exists]
  intro p hp
  exact absurd hp.2 (h p hp.1)

lemma mapSpec_cons_created (s : IssueStep) (rest : List IssueStep) (t : Nat)
    (h : s.createResp = CreateOut.created t) :
    mapSpec (s :: rest) = (s.issue.number, t) :: mapSpec rest := by
  unfold mapSpec
  rw [List.takeWhile_cons, if_pos (by simp [h])]
  simp [h]

lemma mapSpec_cons_failed (s : IssueStep) (rest : List IssueStep) (c : Nat)
    (h : s.createResp = CreateOut.failed c) :
    mapSpec (s :: rest) = mapSpec rest := by
  unfold mapSpec
  rw [List.takeWhile_cons, if_pos (by simp [h])]
  simp [h]

lemma mapSpec_cons_raised (s : IssueStep) (rest : List IssueStep)
    (h : s.createResp = CreateOut.raised) :
    mapSpec (s :: rest) = [] := by
  unfold mapSpec
  rw [List.takeWhile_cons, if_neg (by simp [h])]
  rfl

/-- The issue map built by the `write_issues` loop is exactly `mapSpec`,
provided the incoming issue numbers are distinct from each other and from the
keys already present. -/
lemma writeIssuesGo_map (steps : List IssueStep) :
    ∀ acc : WriteResult,
    (steps.map (fun s => s.issue.number)).Pairwise (· ≠ ·) →
    (∀ s ∈ steps, ∀ p ∈ acc.issueMap, s.issue.number ≠ p.1) →
    (writeIssuesGo steps acc).issueMap = acc.issueMap ++ mapSpec steps := by
  induction steps with
  | nil => intro acc _ _; simp [writeIssuesGo, mapSpec]
  | cons s rest ih =>
    intro acc hpw hdis
    have hpw' : (rest.map (fun s => s.issue.number)).Pairwise (· ≠ ·) := by
      simpa using hpw.of_cons
    match hs : s.createResp with
    | .raised =>
      rw [show writeIssuesGo (s :: rest) acc = ⟨acc.issueMap, acc.posted, true⟩ from by
        simp only [writeIssuesGo, hs]]
      rw [mapSpec_cons_raised s rest hs]
      simp
    | .failed c =>
      rw [show writeIssuesGo (s :: rest) acc = writeIssuesGo rest acc from by
        simp only [writeIssuesGo, hs]]
      rw [mapSpec_cons_failed s rest c hs]
      exact ih acc hpw' (fun x hx => hdis x (List.mem_cons_of_mem s hx))
    | .created t =>
      have hnm : ∀ p ∈ acc.issueMap, p.1 ≠ s.issue.number := by
        intro p hp
        exact fun hc => hdis s (List.mem_cons_self s rest) p hp hc.symm
      have hins : dictInsert s.issue.number t acc.issueMap =
          acc.issueMap ++ [(s.issue.number, t)] :=
        dictInsert_of_not_mem s.issue.number t acc.issueMap hnm
      have hstep : writeIssuesGo (s :: rest) acc =
          writeIssuesGo rest ⟨dictInsert s.issue.number t acc.issueMap,
            (if s.commentsFetchOk then
              acc.posted ++ (s.issue.commentPages.headD []).map (fun c => (t, formatComment c))
            else acc.posted), acc.raised⟩ := by
        simp only [writeIssuesGo, hs]
      rw [hstep]
      have hnum : ∀ x ∈ rest, x.issue.number ≠ s.issue.number := by
        have := List.pairwise_cons.mp hpw
        intro x hx
        exact fun hc => this.1 x.issue.number (List.mem_map_of_mem _ hx) hc.symm
      have hdis' : ∀ x ∈ rest, ∀ p ∈ dictInsert s.issue.number t acc.issueMap,
          x.issue.number ≠ p.1 := by
        intro x hx p hp
        rw [hins] at hp
        rcases List.mem_append.mp hp with hp | hp
        · exact hdis x (List.mem_cons_of_mem s hx) p hp
        · simp only [List.mem_singleton] at hp
          subst hp
          exact hnum x hx
      rw [ih _ hpw' hdis']
      rw [mapSpec_cons_created s rest t hs]
      simp [hins]

/-- The keys of `mapSpec` form a sublist of the incoming issue numbers. -/
lemma mapSpec_keys_sublist (steps : List IssueStep) :
    ((mapSpec steps).map Prod.fst).Sublist (steps.map (fun s => s.issue.number)) := by
  induction steps with
  | nil => simp [mapSpec]
  | cons s rest ih =>
    match hs : s.createResp with
    | .raised =>
      rw [mapSpec_cons_raised s rest hs]
      simp
    | .failed c =>
      rw [mapSpec_cons_failed s rest c hs]
      exact ih.cons _
    | .created t =>
      rw [mapSpec_cons_created s rest t hs]
      simp only [List.map_cons]
      exact ih.cons₂ _

/-- `mapSpec` of a list prefix is a prefix of `mapSpec` of the whole list. -/
lemma mapSpec_append_sub (a : List IssueStep) :
    ∀ b : List IssueStep, ∃ ext, mapSpec (a ++ b) = mapSpec a ++ ext := by
  induction a with
  | nil => intro b; exact ⟨mapSpec b, by simp [mapSpec]⟩
  | cons s rest ih =>
    intro b
    match hs : s.createResp with
    | .raised =>
      refine ⟨[], ?_⟩
      rw [List.cons_append, mapSpec_cons_raised s (rest ++ b) hs,
        mapSpec_cons_raised s rest hs]
      rfl
    | .failed c =>
      obtain ⟨ext, he⟩ := ih b
      refine ⟨ext, ?_⟩
      rw [List.cons_append, mapSpec_cons_failed s (rest ++ b) c hs,
        mapSpec_cons_failed s rest c hs, he]
    | .created t =>
      obtain ⟨ext, he⟩ := ih b
      refine ⟨ext, ?_⟩
      rw [List.cons_append, mapSpec_cons_created s (rest ++ b) t hs,
        mapSpec_cons_created s rest t hs, he]
      rfl

/-- C8 holds (for runs whose incoming source issue numbers are distinct, as
GitHub issue numbers are): after the run — and, via list prefixes, after
every step — the Identifier Mapping equals `mapSpec`: one entry `(source
number, target number)` per issue whose creation POST returned 201, added at
the moment of that success and never before, every key paired with a value;
the keys are distinct; and the map grows monotonically — the map after `i`
steps is a prefix of the map after `i + 1` steps, entries being only
appended, never removed or overwritten. -/
theorem c8_issue_map_invariants :
    ∀ steps : List IssueStep,
    (steps.map (fun s => s.issue.number)).Pairwise (· ≠ ·) →
    (writeIssues steps).issueMap = mapSpec steps
    ∧ ((writeIssues steps).issueMap.map Prod.fst).Pairwise (· ≠ ·)
    ∧ ∀ i : Nat, ∃ ext,
        (writeIssues (steps.take (i + 1))).issueMap =
          (writeIssues (steps.take i)).issueMap ++ ext := by
  intro steps hpw
  have hmap : ∀ l : List IssueStep, (l.map (fun s => s.issue.number)).Pairwise (· ≠ ·) →
      (writeIssues l).issueMap = mapSpec l := by
    intro l hl
    unfold writeIssues
    rw [writeIssuesGo_map l ⟨[], [], false⟩ hl (by intro s _ p hp; cases hp)]
    rfl
  have htake : ∀ i : Nat, ((steps.take i).map (fun s => s.issue.number)).Pairwise (· ≠ ·) := by
    intro i
    rw [List.map_take]
    exact hpw.sublist (List.take_sublist i _)
  refine ⟨hmap steps hpw, ?_, ?_⟩
  · rw [hmap steps hpw]
    exact hpw.sublist (mapSpec_keys_sublist steps)
  · intro i
    rw [hmap _ (htake i), hmap _ (htake (i + 1))]
    obtain ⟨ext, he⟩ := mapSpec_append_sub (steps.take i) ((steps.drop i).take 1)
    refine ⟨ext, ?_⟩
    rw [← he]
    congr 1
    rw [← List.take_add]

/-- Witness for `c8_issue_map_invariants`: a run where issue 1 is created as
10 and issue 2 fails with 422 — the map is exactly `[(1, 10)]`, with distinct
keys, and the step from the first to the second prefix only appends. -/
theorem c8_issue_map_invariants_witness :
    (writeIssues [⟨⟨1, []⟩, CreateOut.created 10, true⟩,
        ⟨⟨2, []⟩, CreateOut.failed 422, true⟩]).issueMap =
      mapSpec [⟨⟨1, []⟩, CreateOut.created 10, true⟩, ⟨⟨2, []⟩, CreateOut.failed 422, true⟩] ∧
    (((writeIssues [⟨⟨1, []⟩, CreateOut.created 10, true⟩,
        ⟨⟨2, []⟩, CreateOut.failed 422, true⟩]).issueMap.map Prod.fst).Pairwise (· ≠ ·)) ∧
    ∃ ext,
      (writeIssues ([⟨⟨1, []⟩, CreateOut.created 10, true⟩,
          ⟨⟨2, []⟩, CreateOut.failed 422, true⟩].take 2)).issueMap =
        (writeIssues ([⟨⟨1, []⟩, CreateOut.created 10, true⟩,
          ⟨⟨2, []⟩, CreateOut.failed 422, true⟩].take 1)).issueMap ++ ext := by
  have h := c8_issue_map_invariants
    [⟨⟨1, []⟩, CreateOut.created 10, true⟩, ⟨⟨2, []⟩, CreateOut.failed 422, true⟩]
    (by decide)
  exact ⟨h.1, h.2.1, h.2.2 1⟩

end GithubScripts
